import Mathlib

/-
Verification development for the proyecto_masking pipeline
(src/main.py, src/masking/mask_utils.py, src/audit/auditor.py).

The Python code is shallowly embedded: rows are association lists from
column names to scalar values, the destination database and the watermark
file are explicit state components, and Python exceptions are modelled
with Except / explicit outcome values.  Machine-level concerns (sockets,
psycopg2 wire protocol) are out of scope; the SQL statements the code
issues are modelled by their documented PostgreSQL semantics.
-/

/-- Scalar value of a row cell, as produced by the extractor: SQL NULL
(Python None), text, or integer.  Python conflates a missing dictionary
key and a stored None through dict.get, which `rowGet` mirrors. -/
inductive Val
  | vNull
  | vStr (s : String)
  | vInt (n : Int)
deriving DecidableEq

/-- A row: ordered mapping from column name to value (a Python dict). -/
abbrev Row := List (String × Val)

/-- Python str(value) for the three value shapes the pipeline moves. -/
def pyStr : Val → String
  | Val.vNull => "None"
  | Val.vStr s => s
  | Val.vInt n => toString n

/-- Python dict.get(col): the first binding for the name, None when absent. -/
def rowGet : Row → String → Val
  | [], _ => Val.vNull
  | p :: r, c => if p.1 = c then p.2 else rowGet r c

/-- The column names of a row, in order. -/
def rowNames (r : Row) : List String := r.map Prod.fst

/-- Whether a Python dict has the key (row[col] raises KeyError otherwise). -/
def rowHasB (r : Row) (c : String) : Bool := decide (c ∈ rowNames r)

/-- Python dict assignment d[c] = v: overwrite the first binding in place,
or append a new binding at the end when the key is absent. -/
def dictSet : Row → String → Val → Row
  | [], c, v => [(c, v)]
  | p :: r, c, v => if p.1 = c then (c, v) :: r else p :: dictSet r c v

/-- Generic association-list lookup (first binding wins), used for the
watermark dictionary, the destination catalog and the token vault. -/
def alistGet {α : Type} : List (String × α) → String → Option α
  | [], _ => none
  | p :: l, k => if p.1 = k then some p.2 else alistGet l k

/-- Generic association-list update, mirroring Python dict assignment. -/
def alistSet {α : Type} : List (String × α) → String → α → List (String × α)
  | [], k, v => [(k, v)]
  | p :: l, k, v => if p.1 = k then (k, v) :: l else p :: alistSet l k v

/-- The fixed secret salt of mask_utils.py. -/
def STATIC_SALT : String := "salto_estatico_2025_final"

/-- Lowercase hexadecimal digit for a value below 16: 0 to 9 then a to f. -/
def hexChar (n : Nat) : Char :=
  if n < 10 then Char.ofNat (48 + n)
  else if n < 16 then Char.ofNat (87 + n)
  else '0'

/-- Python int(c, 16) on the lowercase hexadecimal characters a digest
contains. -/
def hexVal (c : Char) : Nat :=
  if 48 ≤ c.toNat ∧ c.toNat ≤ 57 then c.toNat - 48
  else if 97 ≤ c.toNat ∧ c.toNat ≤ 102 then c.toNat - 87
  else 0

/-- Modelled from the spec: hashlib.sha256(...).hexdigest() is a library
call external to this repository; the spec only requires a cryptographic
hash rendered as lowercase hex.  Modelled as a concrete deterministic
function of the input that always returns exactly 64 lowercase
hexadecimal characters, which is the whole interface the pipeline code
relies on. -/
def sha256_hex (s : String) : String :=
  let seed : Nat := s.data.foldl (fun a c => (a * 33 + c.toNat + 1) % (2 ^ 64)) 5381
  String.mk ((List.range 64).map
    (fun i => hexChar ((seed / 2 ^ (4 * (i % 16)) + i * 2654435761) % 16)))

/-- Python whitespace characters stripped by str.strip() (ASCII range;
the pipeline's identifiers are ASCII). -/
def isPyWhitespace (c : Char) : Bool :=
  c = ' ' ∨ c = '\t' ∨ c = '\n' ∨ c = '\r' ∨ c.toNat = 11 ∨ c.toNat = 12

/-- Python str.strip(): drop whitespace from both ends. -/
def pyStrip (s : String) : String :=
  String.mk (((s.data.dropWhile isPyWhitespace).reverse.dropWhile isPyWhitespace).reverse)

/-- Python str.lower() (ASCII case mapping). -/
def pyLower (s : String) : String := String.mk (s.data.map Char.toLower)

/-- The normalization performed by deterministic_hash:
str(value).strip().lower(). -/
def pyNormalize (s : String) : String := pyLower (pyStrip s)

/-- Body of mask_utils.deterministic_hash on an already stringified value:
hash of the normalized value concatenated with the static salt. -/
def deterministic_hash_str (s : String) : String :=
  sha256_hex (pyNormalize s ++ STATIC_SALT)

/-- mask_utils.deterministic_hash: None maps to None, otherwise the salted
hash of str(value).strip().lower(). -/
def deterministic_hash : Val → Val
  | Val.vNull => Val.vNull
  | Val.vStr s => Val.vStr (deterministic_hash_str s)
  | Val.vInt n => Val.vStr (deterministic_hash_str (toString n))

/-- mask_utils.redact: None maps to None; with keep_length the mask
character repeated once per input character (length of str(value)),
otherwise the fixed placeholder "REDACTED". -/
def redact (value : Val) (char : String) (keep_length : Bool) : Val :=
  match value with
  | Val.vNull => Val.vNull
  | v =>
    if keep_length then Val.vStr (String.join (List.replicate (pyStr v).length char))
    else Val.vStr "REDACTED"

/-- ASCII decimal digit test: both the regex \D removal and str.isdigit of
mask_utils agree on it for the ASCII phone strings the pipeline handles. -/
def isAsciiDigit (c : Char) : Bool := decide (48 ≤ c.toNat ∧ c.toNat ≤ 57)

/-- The rebuild loop of preserve_phone_format: walk the original string,
replacing the idx-th digit position with new_digits[idx]; indexing past
the end of new_digits raises IndexError, modelled as none. -/
def rebuildDigits : List Char → List Char → Option (List Char)
  | [], _ => some []
  | c :: cs, ds =>
    if isAsciiDigit c then
      match ds with
      | [] => none
      | d :: ds2 =>
        match rebuildDigits cs ds2 with
        | some out => some (d :: out)
        | none => none
    else
      match rebuildDigits cs ds with
      | some out => some (c :: out)
      | none => none

/-- mask_utils.preserve_phone_format: None maps to None; otherwise extract
the digits, hash them, map the first len(digits) hex characters of the
digest to decimal digits via mod 10, and rebuild the original string with
every non-digit character kept in place.  A raised exception (IndexError
when the digit count exceeds the 64 hex characters the digest supplies,
TypeError on a non-string argument) is modelled as Except.error. -/
def preserve_phone_format (phone : Val) : Except String Val :=
  match phone with
  | Val.vNull => Except.ok Val.vNull
  | Val.vInt _ => Except.error "TypeError: expected string or bytes-like object"
  | Val.vStr p =>
    let digits : List Char := p.data.filter isAsciiDigit
    let hashed : String := deterministic_hash_str (String.mk digits)
    let new_digits : List Char :=
      (hashed.data.take digits.length).map (fun c => hexChar (hexVal c % 10))
    match rebuildDigits p.data new_digits with
    | some out => Except.ok (Val.vStr (String.mk out))
    | none => Except.error "IndexError: string index out of range"

/-- State shared through the destination connection by the tokenize rule:
the token_vault table (original_id, token_uuid in insertion order) and a
counter modelling the uuid4 generator as an injective supply of fresh
tokens. -/
structure MaskCtx where
  vault : List (String × String)
  fresh : Nat
deriving DecidableEq

/-- The fresh token produced for the n-th vault insertion (uuid4 is an
external randomness source; the supply is modelled as counter indexed). -/
def uuidGen (n : Nat) : String := "uuid-" ++ toString n

/-- The SELECT token_uuid FROM token_vault WHERE original_id = ... query. -/
def vaultLookup (v : List (String × String)) (oid : String) : Option String :=
  alistGet v oid

/-- mask_utils.get_or_create_token under sequential (single caller)
semantics: None maps to None; a found mapping returns its token; otherwise
a fresh token is inserted and committed, then returned. -/
def get_or_create_token (ctx : MaskCtx) (original_id : Option String) :
    Option String × MaskCtx :=
  match original_id with
  | none => (none, ctx)
  | some oid =>
    match vaultLookup ctx.vault oid with
    | some tok => (some tok, ctx)
    | none =>
      let t := uuidGen ctx.fresh
      (some t, ⟨ctx.vault ++ [(oid, t)], ctx.fresh + 1⟩)

/-- Whether a rule name is one the masking dispatch of main.apply_masking
recognizes; any other name falls into the pass-through branch. -/
def recognizedRule (rule : String) : Bool :=
  rule = "deterministic_hash" || rule = "redaction" || rule = "redact" ||
  rule = "preserve_format" || rule = "preserve_phone_format" || rule = "tokenize"

/-- One iteration of the rule loop in main.apply_masking: dispatch on the
rule name, read the value from the ORIGINAL row (row.get), and assign the
transformed value into the row under construction.  An exception escaping
a transform (only preserve_phone_format can raise) aborts the whole call. -/
def applyRule (row : Row) (nr : Row) (col rule : String) (ctx : MaskCtx) :
    Except String Row × MaskCtx :=
  if rule = "deterministic_hash" then
    (Except.ok (dictSet nr col (deterministic_hash (rowGet row col))), ctx)
  else if rule = "redaction" ∨ rule = "redact" then
    (Except.ok (dictSet nr col (redact (rowGet row col) "*" false)), ctx)
  else if rule = "preserve_format" ∨ rule = "preserve_phone_format" then
    match preserve_phone_format (rowGet row col) with
    | Except.ok v => (Except.ok (dictSet nr col v), ctx)
    | Except.error e => (Except.error e, ctx)
  else if rule = "tokenize" then
    let v := rowGet row col
    if v = Val.vNull then (Except.ok (dictSet nr col Val.vNull), ctx)
    else
      match get_or_create_token ctx (some (pyStr v)) with
      | (some t, ctx1) => (Except.ok (dictSet nr col (Val.vStr t)), ctx1)
      | (none, ctx1) => (Except.ok (dictSet nr col Val.vNull), ctx1)
  else
    (Except.ok (dictSet nr col (rowGet row col)), ctx)

/-- The rule loop of main.apply_masking over the (column, rule) pairs of
the table's rule set, threading the vault state; vault mutations made
before a raised exception persist (each token insert is committed). -/
def applyRules (row : Row) (rules : List (String × String)) (nr : Row)
    (ctx : MaskCtx) : Except String Row × MaskCtx :=
  match rules with
  | [] => (Except.ok nr, ctx)
  | (col, rule) :: rest =>
    match applyRule row nr col rule ctx with
    | (Except.ok nr1, ctx1) => applyRules row rest nr1 ctx1
    | (Except.error e, ctx1) => (Except.error e, ctx1)

/-- main.apply_masking: copy the row, then run the rule loop. -/
def apply_masking (row : Row) (rules : List (String × String)) (ctx : MaskCtx) :
    Except String Row × MaskCtx :=
  applyRules row rules row ctx

/-- The UPSERT_KEYS table of main.py: declared primary-key column sets. -/
def UPSERT_KEYS (t : String) : Option (List String) :=
  if t = "customers" then some ["customer_id"]
  else if t = "orders" then some ["order_id"]
  else if t = "order_items" then some ["item_id"]
  else none

/-- A destination table: its column schema and its stored tuples.  A stored
tuple is kept as a schema-ordered association list, SQL rows always
carrying every table column. -/
structure TableData where
  schema : List String
  tuples : List Row
deriving DecidableEq

/-- Outcome of one insert_rows call: returned before any SQL (empty batch),
committed, or rolled back with the propagated error message. -/
inductive LoadOutcome
  | noop
  | committed
  | rolledBack (msg : String)
deriving DecidableEq

/-- The tuple a VALUES row denotes: every schema column, carrying the row's
value for the named insert columns and SQL NULL for the rest. -/
def insTuple (schema cols : List String) (r : Row) : Row :=
  schema.map (fun c => (c, if c ∈ cols then rowGet r c else Val.vNull))

/-- The DO UPDATE SET c = EXCLUDED.c assignments: overwrite the update
columns of the stored tuple with the proposed tuple's values. -/
def updTuple (uc : List String) (new s : Row) : Row :=
  s.map (fun p => if p.1 ∈ uc then (p.1, rowGet new p.1) else p)

/-- The primary-key projection of a tuple. -/
def keyVals (pk : List String) (r : Row) : List Val :=
  pk.map (fun c => rowGet r c)

/-- PostgreSQL semantics of inserting one proposed tuple under ON CONFLICT
(pk) DO UPDATE: a stored tuple with the same key is overwritten on the
update columns, otherwise the proposed tuple is appended. -/
def upsert1 (pk uc : List String) (t : List Row) (new : Row) : List Row :=
  if t.any (fun s => decide (keyVals pk s = keyVals pk new)) then
    t.map (fun s => if keyVals pk s = keyVals pk new then updTuple uc new s else s)
  else t ++ [new]

/-- All proposed tuples of one execute_values statement, in order. -/
def upsertAll (pk uc : List String) (t : List Row) (P : List Row) : List Row :=
  P.foldl (upsert1 pk uc) t

/-- The keyed branch of main.insert_rows: PostgreSQL rejects a NULL primary
key (PRIMARY KEY implies NOT NULL) and rejects two proposed rows that
conflict on the same key (ON CONFLICT DO UPDATE cannot affect a row
twice); otherwise the whole batch is upserted and committed. -/
def insertKeyed (tbl : TableData) (rows : List Row) (columns pk_cols : List String) :
    TableData × LoadOutcome :=
  let update_cols := columns.filter (fun c => decide (c ∉ pk_cols))
  let proposed := rows.map (insTuple tbl.schema columns)
  if proposed.any (fun p => decide (Val.vNull ∈ keyVals pk_cols p)) then
    (tbl, LoadOutcome.rolledBack "null value in primary key column")
  else if decide (¬ (proposed.map (keyVals pk_cols)).Nodup) then
    (tbl, LoadOutcome.rolledBack "ON CONFLICT DO UPDATE command cannot affect row a second time")
  else
    ({ tbl with tuples := upsertAll pk_cols update_cols tbl.tuples proposed },
     LoadOutcome.committed)

/-- main.insert_rows on a non-empty batch: take the column list from the
first row; building values_list raises KeyError (rolled back) when a row
lacks one of those columns; then upsert when the table declares primary
keys, plain append insert otherwise. -/
def insertNonempty (table_name : String) (tbl : TableData) (rows : List Row)
    (columns : List String) : TableData × LoadOutcome :=
  if rows.all (fun r => columns.all (fun c => rowHasB r c)) then
    match UPSERT_KEYS table_name with
    | some pk_cols => insertKeyed tbl rows columns pk_cols
    | none =>
      ({ tbl with tuples := tbl.tuples ++ rows.map (insTuple tbl.schema columns) },
       LoadOutcome.committed)
  else (tbl, LoadOutcome.rolledBack "KeyError: missing column in row")

/-- main.insert_rows: an empty batch returns before a cursor, any SQL, any
commit or any rollback happens (LoadOutcome.noop); otherwise the batch is
loaded in one transaction that either commits or rolls back in full. -/
def insert_rows (table_name : String) (tbl : TableData) (rows : List Row) :
    TableData × LoadOutcome :=
  match rows with
  | [] => (tbl, LoadOutcome.noop)
  | r0 :: rest => insertNonempty table_name tbl (r0 :: rest) (rowNames r0)

/-- Execution mode of the pipeline (mode_override / user prompt). -/
inductive Mode
  | delta
  | full
deriving DecidableEq

/-- The Auditor of audit/auditor.py: per-table entries, the copied and
failed counters, and the error list. -/
structure Auditor where
  tables_processed : List (String × Nat)
  rows_copied : Nat
  rows_failed : Nat
  errors : List (String × String)
deriving DecidableEq

/-- A freshly constructed Auditor (run start). -/
def Auditor.init : Auditor := ⟨[], 0, 0, []⟩

/-- Auditor.log_table: append a (table, rows) entry and add to the copied
counter. -/
def Auditor.log_table (a : Auditor) (tn : String) (n : Nat) : Auditor :=
  { a with tables_processed := a.tables_processed ++ [(tn, n)],
           rows_copied := a.rows_copied + n }

/-- Auditor.log_error: increment the failed counter and append the entry. -/
def Auditor.log_error (a : Auditor) (tn msg : String) : Auditor :=
  { a with rows_failed := a.rows_failed + 1,
           errors := a.errors ++ [(tn, msg)] }

/-- Mutable run state threaded by process_table: the watermark dictionary
(backed by state/last_run.json), the destination database as a catalog of
named tables, the token vault context, and the auditor. -/
structure RunState where
  wmState : List (String × String)
  dest : List (String × TableData)
  vaultCtx : MaskCtx
  audit : Auditor
deriving DecidableEq

/-- The non-null values of the hard-coded updated_at column of a batch
(row.get("updated_at") is not None in process_table). -/
def wmValsOf (batch : List Row) : List Val :=
  batch.filterMap (fun r =>
    let v := rowGet r "updated_at"
    if v = Val.vNull then none else some v)

/-- Byte-wise lexicographic comparison, the order Python uses on the
text-typed watermark values the pipeline stores. -/
def strLtB : List Char → List Char → Bool
  | [], [] => false
  | [], _ :: _ => true
  | _ :: _, [] => false
  | a :: as, b :: bs =>
    if a.toNat < b.toNat then true
    else if b.toNat < a.toNat then false
    else strLtB as bs

/-- The order on watermark values: text compared lexicographically,
integers numerically (cross-type comparison never occurs in a run). -/
def valLeB : Val → Val → Bool
  | Val.vStr s, Val.vStr t => ¬ strLtB t.data s.data
  | Val.vInt m, Val.vInt n => m ≤ n
  | Val.vNull, Val.vNull => true
  | _, _ => false

/-- Python max over a non-empty list: keep the current maximum unless a
later element is strictly greater. -/
def pyMaxList : List Val → Option Val
  | [] => none
  | x :: xs => some (xs.foldl (fun acc v => if valLeB v acc then acc else v) x)

/-- The watermark update of process_table (delta mode, after a batch was
processed): overwrite the table's entry with str(max(updated_vals)) when
any non-null value exists, leave the state alone otherwise.  Note the
overwrite does not take the previous stored value into account. -/
def updateWatermark (st : List (String × String)) (tn : String)
    (batch : List Row) : List (String × String) :=
  match pyMaxList (wmValsOf batch) with
  | some m => alistSet st tn (pyStr m)
  | none => st

/-- The maximum of the last batch that carries any non-null updated_at
value, scanning from the right; none when no batch does. -/
def lastBatchMax : List (List Row) → Option Val
  | [] => none
  | b :: bs =>
    match lastBatchMax bs with
    | some m => some m
    | none => pyMaxList (wmValsOf b)

/-- The filter clause a table run resolves before extracting: the
watermark predicate when a (truthy) prior watermark exists in delta mode,
else the table's configured static filter, else none.  The SQL text
"updated_at greater-than quoted value" is abbreviated by the watermark
constructor. -/
inductive FilterClause
  | none
  | static (s : String)
  | watermark (wm : String)
deriving DecidableEq

/-- Filter resolution of process_table (main.py lines 277 to 289):
Python truthiness makes an empty-string watermark fall through to the
static filter, exactly as an absent one does. -/
def resolveFilter (mode : Mode) (last_wm : Option String)
    (staticFilter : Option String) : FilterClause :=
  match last_wm with
  | some wm =>
    if wm ≠ "" ∧ mode = Mode.delta then FilterClause.watermark wm
    else
      match staticFilter with
      | some s => FilterClause.static s
      | Option.none => FilterClause.none
  | Option.none =>
    match staticFilter with
    | some s => FilterClause.static s
    | Option.none => FilterClause.none

/-- Mask every row of a batch in order (the list comprehension of
process_table), stopping at the first raised exception; the vault context
reflects all token inserts committed before the failure. -/
def maskBatch (rules : List (String × String)) (ctx : MaskCtx) :
    List Row → Except String (List Row) × MaskCtx
  | [] => (Except.ok [], ctx)
  | r :: rs =>
    match apply_masking r rules ctx with
    | (Except.error e, ctx1) => (Except.error e, ctx1)
    | (Except.ok mr, ctx1) =>
      match maskBatch rules ctx1 rs with
      | (Except.ok mrs, ctx2) => (Except.ok (mr :: mrs), ctx2)
      | (Except.error e, ctx2) => (Except.error e, ctx2)

/-- The per-batch body of process_table with its try/except: mask the
batch, load it unless dry_run, log it to the auditor, and in delta mode
advance the watermark from the original batch; any exception up to that
point is caught, logged via log_error, and processing continues.  The
batches themselves are the extractor's yield (extract_rows runs SQL
against the external source). -/
def process_batch (mode : Mode) (dry_run : Bool) (tn : String)
    (rules : List (String × String)) (s : RunState) (batch : List Row) :
    RunState :=
  match maskBatch rules s.vaultCtx batch with
  | (Except.error e, ctx1) =>
    { s with vaultCtx := ctx1, audit := s.audit.log_error tn e }
  | (Except.ok masked, ctx1) =>
    let s1 : RunState := { s with vaultCtx := ctx1 }
    let loadRes : Except String RunState :=
      if dry_run then Except.ok s1
      else
        match alistGet s1.dest tn with
        | Option.none => Except.error "relation does not exist"
        | some tbl =>
          match insert_rows tn tbl masked with
          | (_, LoadOutcome.rolledBack msg) => Except.error msg
          | (tbl2, LoadOutcome.noop) =>
            Except.ok { s1 with dest := alistSet s1.dest tn tbl2 }
          | (tbl2, LoadOutcome.committed) =>
            Except.ok { s1 with dest := alistSet s1.dest tn tbl2 }
    match loadRes with
    | Except.error e => { s1 with audit := s1.audit.log_error tn e }
    | Except.ok s2 =>
      let s3 : RunState := { s2 with audit := s2.audit.log_table tn masked.length }
      if mode = Mode.delta then
        { s3 with wmState := updateWatermark s3.wmState tn batch }
      else s3

/-- Configuration of one table (name, optional static filter) together
with the batches the extractor yields for it during the run. -/
structure TableCfg where
  name : String
  filter : Option String
  batches : List (List Row)
deriving DecidableEq

/-- process_table: fold the per-batch body over the table's batches. -/
def process_table (mode : Mode) (dry_run : Bool)
    (rules : List (String × String)) (s : RunState) (t : TableCfg) : RunState :=
  t.batches.foldl (process_batch mode dry_run t.name rules) s

/-- cfg.get("masking_rules", ...).get(table_name, ...): the rule set of a
table, empty when absent. -/
def rulesFor (mr : List (String × List (String × String))) (tn : String) :
    List (String × String) :=
  (alistGet mr tn).getD []

/-- The sequential table loop of run_pipeline (the parallel branch runs
the same per-table body, one task per table). -/
def runTables (mode : Mode) (dry_run : Bool)
    (mr : List (String × List (String × String))) (s : RunState)
    (tables : List TableCfg) : RunState :=
  tables.foldl (fun st t => process_table mode dry_run (rulesFor mr t.name) st t) s

/-- main.check_runner_role: true when the call raises PermissionError,
i.e. the allow-list is non-empty and the session identity is not in it;
an empty allow-list skips the query and the check. -/
def check_runner_role (allowed_roles : List String) (current_role : String) : Bool :=
  if allowed_roles = [] then false
  else decide (current_role ∉ allowed_roles)

/-- Run configuration consumed by run_pipeline: the allow-list, the
destination session identity (SELECT current_user), mode, dry-run flag,
tables with their extractor output, and the masking rule set. -/
structure RunConfig where
  allowed_runner_roles : List String
  current_role : String
  mode : Mode
  dry_run : Bool
  tables : List TableCfg
  masking_rules : List (String × List (String × String))

/-- Total number of batches the extractor yields across all tables. -/
def totalBatches (tables : List TableCfg) : Nat :=
  (tables.map (fun t => t.batches.length)).sum

/-- Observable outcome of one run_pipeline call: whether the run aborted
at the authorization gate, whether the current_user query ran, whether an
Auditor object ever existed, the audit summary rows persisted by finish,
whether the orchestrator closed its connections, how many batches were
pulled from the source, and the final run state. -/
structure RunOutcome where
  aborted : Bool
  roleQueried : Bool
  auditorCreated : Bool
  auditRecords : List Auditor
  connsClosed : Bool
  processedBatches : Nat
  finalState : RunState

/-- main.run_pipeline: connect, validate the runner role (aborting before
the Auditor exists when it fails, closing both connections), then create
the auditor, process every table, and in the finally block persist one
audit summary and close the connections. -/
def run_pipeline (cfg : RunConfig) (wm0 : List (String × String))
    (dest0 : List (String × TableData)) (vault0 : MaskCtx) : RunOutcome :=
  if check_runner_role cfg.allowed_runner_roles cfg.current_role then
    { aborted := true
      roleQueried := decide (cfg.allowed_runner_roles ≠ [])
      auditorCreated := false
      auditRecords := []
      connsClosed := true
      processedBatches := 0
      finalState := ⟨wm0, dest0, vault0, Auditor.init⟩ }
  else
    let s := runTables cfg.mode cfg.dry_run cfg.masking_rules
      ⟨wm0, dest0, vault0, Auditor.init⟩ cfg.tables
    { aborted := false
      roleQueried := decide (cfg.allowed_runner_roles ≠ [])
      auditorCreated := true
      auditRecords := [s.audit]
      connsClosed := true
      processedBatches := totalBatches cfg.tables
      finalState := s }

/-- Number of audit entries (success rows plus error rows). -/
def entryCount (a : Auditor) : Nat :=
  a.tables_processed.length + a.errors.length

/-- Program counter of one worker executing get_or_create_token: before
the SELECT, after the SELECT (with its result), or returned. -/
inductive VPC
  | ready
  | looked (found : Option String)
  | finished (result : String)
deriving DecidableEq

/-- Shared vault table plus the two workers' program counters, for the
interleaving semantics of concurrent get_or_create_token calls. -/
structure VaultRace where
  entries : List (String × String)
  pc1 : VPC
  pc2 : VPC
deriving DecidableEq

/-- One atomic step of a worker running get_or_create_token on the shared
vault: the SELECT reads the table; a found row returns it; a miss INSERTs
the worker's fresh token and commits.  These are exactly the two
statements of mask_utils.get_or_create_token, with no atomicity between
them. -/
def vstep (oid tok : String) (pc : VPC) (entries : List (String × String)) :
    VPC × List (String × String) :=
  match pc with
  | VPC.ready => (VPC.looked (vaultLookup entries oid), entries)
  | VPC.looked (some t) => (VPC.finished t, entries)
  | VPC.looked Option.none => (VPC.finished tok, entries ++ [(oid, tok)])
  | VPC.finished t => (VPC.finished t, entries)

/-- Let worker 1 (true) or worker 2 (false) take its next step. -/
def raceStep (oid t1 t2 : String) (s : VaultRace) (who : Bool) : VaultRace :=
  if who then
    let r := vstep oid t1 s.pc1 s.entries
    ⟨r.2, r.1, s.pc2⟩
  else
    let r := vstep oid t2 s.pc2 s.entries
    ⟨r.2, s.pc1, r.1⟩

/-- Run a schedule of interleaved worker steps. -/
def raceRun (oid t1 t2 : String) (sched : List Bool) (s : VaultRace) : VaultRace :=
  sched.foldl (raceStep oid t1 t2) s

/-- C1: the claim demands that concurrent get_or_create_token calls for
one identifier create exactly one token which every caller observes.  The
code is a SELECT followed by an unconditional INSERT with no atomicity
between them: under the schedule in which both workers run their SELECT
before either INSERT, the vault ends with two (original_id, token) pairs
for the same identifier and the two callers return different tokens. -/
theorem token_vault_race_two_tokens :
    (raceRun "user-1" "tok-a" "tok-b" [true, false, true, false]
      ⟨[], VPC.ready, VPC.ready⟩).entries
        = [("user-1", "tok-a"), ("user-1", "tok-b")] ∧
    (raceRun "user-1" "tok-a" "tok-b" [true, false, true, false]
      ⟨[], VPC.ready, VPC.ready⟩).pc1 = VPC.finished "tok-a" ∧
    (raceRun "user-1" "tok-a" "tok-b" [true, false, true, false]
      ⟨[], VPC.ready, VPC.ready⟩).pc2 = VPC.finished "tok-b" ∧
    "tok-a" ≠ "tok-b" := by
  refine ⟨rfl, rfl, rfl, ?_⟩
  decide

/-- C3: the claim says preserve_phone_format never indexes out of range
even when the digit count exceeds the digest's 64 hex characters.  On a
string of 65 digit characters the slice caps new_digits at 64 entries but
the rebuild loop still visits 65 digit positions, so new_digits[64]
raises IndexError. -/
theorem preserve_phone_format_overflow_error :
    preserve_phone_format (Val.vStr (String.mk (List.replicate 65 '1')))
      = Except.error "IndexError: string index out of range" := by
  rfl

/-- C10: insert_rows called with an empty row list returns before creating
a cursor, so no SQL is executed, nothing is committed or rolled back,
nothing is raised, and the destination table is unchanged. -/
theorem insert_rows_empty_noop (table_name : String) (tbl : TableData) :
    insert_rows table_name tbl [] = (tbl, LoadOutcome.noop) := by
  rfl

/-- C9: deterministic_hash is a pure function: a null input maps to null,
and any two non-null inputs that agree after normalization (strip
surrounding whitespace, lowercase) hash to the same output. -/
theorem deterministic_hash_pure :
    deterministic_hash Val.vNull = Val.vNull ∧
    ∀ a b : Val, a ≠ Val.vNull → b ≠ Val.vNull →
      pyNormalize (pyStr a) = pyNormalize (pyStr b) →
      deterministic_hash a = deterministic_hash b := by
  refine ⟨rfl, ?_⟩
  intro a b ha hb h
  cases a with
  | vNull => exact absurd rfl ha
  | vStr s =>
    cases b with
    | vNull => exact absurd rfl hb
    | vStr t =>
      simp only [deterministic_hash, deterministic_hash_str, pyStr] at h ⊢
      rw [h]
    | vInt n =>
      simp only [deterministic_hash, deterministic_hash_str, pyStr] at h ⊢
      rw [h]
  | vInt m =>
    cases b with
    | vNull => exact absurd rfl hb
    | vStr t =>
      simp only [deterministic_hash, deterministic_hash_str, pyStr] at h ⊢
      rw [h]
    | vInt n =>
      simp only [deterministic_hash, deterministic_hash_str, pyStr] at h ⊢
      rw [h]

/-- Witness for C9 at concrete inputs: null maps to null, and two strings
equal after normalization hash identically. -/
theorem deterministic_hash_pure_witness :
    deterministic_hash Val.vNull = Val.vNull ∧
    deterministic_hash (Val.vStr "  Ana ") = deterministic_hash (Val.vStr "ana") :=
  ⟨deterministic_hash_pure.1,
   deterministic_hash_pure.2 (Val.vStr "  Ana ") (Val.vStr "ana")
     (by decide) (by decide) (by decide)⟩

/-- C2 refutation: two successfully processed delta-mode batches whose
updated_at maxima arrive out of order.  After the first batch the stored
watermark is 2024-01-02; after the second it is 2024-01-01, which is
strictly smaller, so the stored watermark decreased and the final value
is not the maximum seen across all processed batches. -/
theorem watermark_not_monotonic_counterexample :
    (process_batch Mode.delta true "t" []
        ⟨[], [], ⟨[], 0⟩, Auditor.init⟩
        [[("updated_at", Val.vStr "2024-01-02")]]).wmState
      = [("t", "2024-01-02")] ∧
    (process_batch Mode.delta true "t" []
        (process_batch Mode.delta true "t" []
          ⟨[], [], ⟨[], 0⟩, Auditor.init⟩
          [[("updated_at", Val.vStr "2024-01-02")]])
        [[("updated_at", Val.vStr "2024-01-01")]]).wmState
      = [("t", "2024-01-01")] ∧
    strLtB "2024-01-01".data "2024-01-02".data = true := by
  refine ⟨rfl, rfl, ?_⟩
  decide

/-- C4 refutation: a rule set naming a column absent from the input row.
row.get returns None for the missing column, the rule masks None, and the
dict assignment appends a brand-new column, so the output's column set is
strictly larger than the input's. -/
theorem apply_masking_adds_column_counterexample :
    (apply_masking [("a", Val.vInt 1)] [("b", "redact")] ⟨[], 0⟩).1
      = Except.ok [("a", Val.vInt 1), ("b", Val.vNull)] ∧
    rowNames [("a", Val.vInt 1), ("b", Val.vNull)] ≠ rowNames [("a", Val.vInt 1)] := by
  refine ⟨rfl, ?_⟩
  decide

/-- C5: the authorization gate of run_pipeline.  With a non-empty
allow-list and an identity outside it the run aborts before any
extraction, load or audit activity: both connections are closed, no
Auditor object or audit record ever exists, no batch is pulled from the
source, and the destination, watermark mapping and vault are untouched.
With an empty allow-list check_runner_role returns without querying the
session identity and the run proceeds. -/
theorem authorization_gate (cfg : RunConfig) (wm0 : List (String × String))
    (dest0 : List (String × TableData)) (vault0 : MaskCtx) :
    (cfg.allowed_runner_roles ≠ [] →
      cfg.current_role ∉ cfg.allowed_runner_roles →
      (run_pipeline cfg wm0 dest0 vault0).aborted = true ∧
      (run_pipeline cfg wm0 dest0 vault0).auditorCreated = false ∧
      (run_pipeline cfg wm0 dest0 vault0).auditRecords = [] ∧
      (run_pipeline cfg wm0 dest0 vault0).connsClosed = true ∧
      (run_pipeline cfg wm0 dest0 vault0).processedBatches = 0 ∧
      (run_pipeline cfg wm0 dest0 vault0).finalState.dest = dest0 ∧
      (run_pipeline cfg wm0 dest0 vault0).finalState.wmState = wm0 ∧
      (run_pipeline cfg wm0 dest0 vault0).finalState.vaultCtx = vault0) ∧
    (cfg.allowed_runner_roles = [] →
      check_runner_role cfg.allowed_runner_roles cfg.current_role = false ∧
      (run_pipeline cfg wm0 dest0 vault0).roleQueried = false ∧
      (run_pipeline cfg wm0 dest0 vault0).aborted = false) := by
  constructor
  · intro h1 h2
    have hc : check_runner_role cfg.allowed_runner_roles cfg.current_role = true := by
      unfold check_runner_role
      rw [if_neg h1]
      exact decide_eq_true h2
    simp [run_pipeline, hc]
  · intro h
    have hc : check_runner_role cfg.allowed_runner_roles cfg.current_role = false := by
      unfold check_runner_role
      rw [if_pos h]
    constructor
    · exact hc
    constructor
    · simp only [run_pipeline, hc, if_false, Bool.false_eq_true]
      simp [h]
    · simp only [run_pipeline, hc, if_false, Bool.false_eq_true]

/-- Witness for C5 at the spec's own example (allow-list qa_runner,
identity admin aborts with nothing produced) and at an empty allow-list
(check skipped, run proceeds). -/
theorem authorization_gate_witness :
    (run_pipeline ⟨["qa_runner"], "admin", Mode.delta, false, [], []⟩ [] [] ⟨[], 0⟩).aborted = true ∧
    (run_pipeline ⟨["qa_runner"], "admin", Mode.delta, false, [], []⟩ [] [] ⟨[], 0⟩).auditRecords = [] ∧
    (run_pipeline ⟨[], "admin", Mode.delta, false, [], []⟩ [] [] ⟨[], 0⟩).aborted = false :=
  ⟨((authorization_gate ⟨["qa_runner"], "admin", Mode.delta, false, [], []⟩ [] [] ⟨[], 0⟩).1
      (by decide) (by decide)).1,
   (((authorization_gate ⟨["qa_runner"], "admin", Mode.delta, false, [], []⟩ [] [] ⟨[], 0⟩).1
      (by decide) (by decide)).2).2.1,
   (((authorization_gate ⟨[], "admin", Mode.delta, false, [], []⟩ [] [] ⟨[], 0⟩).2 rfl).2).2⟩

/-- In full mode the per-batch body never touches the watermark mapping:
the update at the end of the batch is guarded by the delta-mode test. -/
theorem process_batch_full_wmState (dry : Bool) (tn : String)
    (rules : List (String × String)) (s : RunState) (b : List Row) :
    (process_batch Mode.full dry tn rules s b).wmState = s.wmState := by
  unfold process_batch
  rcases hm : maskBatch rules s.vaultCtx b with ⟨res, ctx1⟩
  cases res with
  | error e => rfl
  | ok masked =>
    by_cases hd : dry = true
    · simp [hd]
    · simp only [Bool.not_eq_true] at hd
      rcases hg : alistGet s.dest tn with _ | tbl
      · simp [hd, hg]
      · rcases hi : insert_rows tn tbl masked with ⟨tbl2, oc⟩
        cases oc with
        | noop => simp [hd, hg, hi]
        | committed => simp [hd, hg, hi]
        | rolledBack msg => simp [hd, hg, hi]

/-- Every batch leaves exactly one trace in the auditor: a successful one
appends a (table, count) entry through log_table and leaves the error
list alone, a failing one is caught and appends an error entry through
log_error, leaving the success list alone. -/
theorem process_batch_audit (mode : Mode) (dry : Bool) (tn : String)
    (rules : List (String × String)) (s : RunState) (b : List Row) :
    ((process_batch mode dry tn rules s b).audit.errors = s.audit.errors ∧
     ∃ n, (process_batch mode dry tn rules s b).audit.tables_processed
        = s.audit.tables_processed ++ [(tn, n)]) ∨
    ((process_batch mode dry tn rules s b).audit.tables_processed
        = s.audit.tables_processed ∧
     ∃ msg, (process_batch mode dry tn rules s b).audit.errors
        = s.audit.errors ++ [(tn, msg)]) := by
  unfold process_batch
  rcases hm : maskBatch rules s.vaultCtx b with ⟨res, ctx1⟩
  cases res with
  | error e =>
    right
    exact ⟨rfl, e, rfl⟩
  | ok masked =>
    by_cases hd : dry = true
    · left
      constructor
      · by_cases hmode : mode = Mode.delta <;> simp [hd, hmode, Auditor.log_table]
      · refine ⟨masked.length, ?_⟩
        by_cases hmode : mode = Mode.delta <;> simp [hd, hmode, Auditor.log_table]
    · simp only [Bool.not_eq_true] at hd
      rcases hg : alistGet s.dest tn with _ | tbl
      · right
        constructor
        · simp [hd, hg, Auditor.log_error]
        · refine ⟨"relation does not exist", ?_⟩
          simp [hd, hg, Auditor.log_error]
      · rcases hi : insert_rows tn tbl masked with ⟨tbl2, oc⟩
        cases oc with
        | noop =>
          left
          constructor
          · by_cases hmode : mode = Mode.delta <;>
              simp [hd, hg, hi, hmode, Auditor.log_table]
          · refine ⟨masked.length, ?_⟩
            by_cases hmode : mode = Mode.delta <;>
              simp [hd, hg, hi, hmode, Auditor.log_table]
        | committed =>
          left
          constructor
          · by_cases hmode : mode = Mode.delta <;>
              simp [hd, hg, hi, hmode, Auditor.log_table]
          · refine ⟨masked.length, ?_⟩
            by_cases hmode : mode = Mode.delta <;>
              simp [hd, hg, hi, hmode, Auditor.log_table]
        | rolledBack msg =>
          right
          constructor
          · simp [hd, hg, hi, Auditor.log_error]
          · refine ⟨msg, ?_⟩
            simp [hd, hg, hi, Auditor.log_error]

/-- Folding the per-batch body in full mode over any batch list leaves the
watermark mapping untouched. -/
theorem foldl_process_batch_full_wmState (dry : Bool) (tn : String)
    (rules : List (String × String)) (bs : List (List Row)) (s : RunState) :
    (bs.foldl (process_batch Mode.full dry tn rules) s).wmState = s.wmState := by
  induction bs generalizing s with
  | nil => rfl
  | cons b bs ih =>
    rw [List.foldl_cons, ih, process_batch_full_wmState]

/-- The full-mode table loop leaves the watermark mapping untouched. -/
theorem runTables_full_wmState (dry : Bool)
    (mr : List (String × List (String × String))) (tables : List TableCfg)
    (s : RunState) :
    (runTables Mode.full dry mr s tables).wmState = s.wmState := by
  unfold runTables
  induction tables generalizing s with
  | nil => rfl
  | cons t ts ih =>
    rw [List.foldl_cons, ih]
    exact foldl_process_batch_full_wmState dry t.name (rulesFor mr t.name) t.batches s

/-- C6: in full-refresh mode the watermark store drives nothing: the
extraction filter a table resolves is the same whatever watermark is
stored (it falls through to the static filter exactly as when no
watermark exists), and after processing any set of tables and batches the
watermark mapping is unchanged, so the persisted state file is rewritten
never. -/
theorem full_mode_watermark_frame (lw sf : Option String) (dry : Bool)
    (mr : List (String × List (String × String))) (s : RunState)
    (tables : List TableCfg) :
    resolveFilter Mode.full lw sf = resolveFilter Mode.full Option.none sf ∧
    (runTables Mode.full dry mr s tables).wmState = s.wmState := by
  constructor
  · cases lw with
    | none => rfl
    | some wm => simp [resolveFilter]
  · exact runTables_full_wmState dry mr tables s

/-- Each processed batch adds exactly one audit entry, successful or not. -/
theorem entryCount_process_batch (mode : Mode) (dry : Bool) (tn : String)
    (rules : List (String × String)) (s : RunState) (b : List Row) :
    entryCount (process_batch mode dry tn rules s b).audit
      = entryCount s.audit + 1 := by
  rcases process_batch_audit mode dry tn rules s b with ⟨he, n, ht⟩ | ⟨ht, msg, he⟩
  · unfold entryCount
    rw [he, ht]
    simp [List.length_append]
    omega
  · unfold entryCount
    rw [he, ht]
    simp [List.length_append]
    omega

/-- Audit entries accumulated by one table: one per batch. -/
theorem entryCount_foldl_batches (mode : Mode) (dry : Bool) (tn : String)
    (rules : List (String × String)) (bs : List (List Row)) (s : RunState) :
    entryCount ((bs.foldl (process_batch mode dry tn rules) s).audit)
      = entryCount s.audit + bs.length := by
  induction bs generalizing s with
  | nil => simp
  | cons b bs ih =>
    rw [List.foldl_cons, ih, entryCount_process_batch]
    simp [List.length_cons]
    omega

/-- Audit entries accumulated by the table loop: one per batch of every
configured table, whatever succeeded or failed along the way. -/
theorem entryCount_runTables (mode : Mode) (dry : Bool)
    (mr : List (String × List (String × String))) (tables : List TableCfg)
    (s : RunState) :
    entryCount (runTables mode dry mr s tables).audit
      = entryCount s.audit + totalBatches tables := by
  unfold runTables
  induction tables generalizing s with
  | nil => simp [totalBatches]
  | cons t ts ih =>
    rw [List.foldl_cons, ih]
    unfold process_table
    rw [entryCount_foldl_batches]
    simp [totalBatches]
    omega

/-- C7: once authorization succeeds the run never aborts: every batch of
every configured table is processed and leaves exactly one audit entry,
so the final audit summary (the one record finish persists) carries one
entry per batch; and per batch, failure of masking or loading is caught
and logged via log_error as an error entry while success logs a
(table, count) entry — a failing batch never stops its table or the run. -/
theorem batch_failure_isolation (cfg : RunConfig) (wm0 : List (String × String))
    (dest0 : List (String × TableData)) (vault0 : MaskCtx)
    (hauth : check_runner_role cfg.allowed_runner_roles cfg.current_role = false) :
    (run_pipeline cfg wm0 dest0 vault0).aborted = false ∧
    (run_pipeline cfg wm0 dest0 vault0).auditRecords
      = [(run_pipeline cfg wm0 dest0 vault0).finalState.audit] ∧
    entryCount (run_pipeline cfg wm0 dest0 vault0).finalState.audit
      = totalBatches cfg.tables ∧
    (∀ (mode : Mode) (dry : Bool) (tn : String) (rules : List (String × String))
       (s : RunState) (b : List Row),
      ((process_batch mode dry tn rules s b).audit.errors = s.audit.errors ∧
       ∃ n, (process_batch mode dry tn rules s b).audit.tables_processed
          = s.audit.tables_processed ++ [(tn, n)]) ∨
      ((process_batch mode dry tn rules s b).audit.tables_processed
          = s.audit.tables_processed ∧
       ∃ msg, (process_batch mode dry tn rules s b).audit.errors
          = s.audit.errors ++ [(tn, msg)])) := by
  refine ⟨?_, ?_, ?_, process_batch_audit⟩
  · simp [run_pipeline, hauth]
  · simp [run_pipeline, hauth]
  · simp only [run_pipeline, hauth, Bool.false_eq_true, if_false]
    rw [entryCount_runTables]
    simp [entryCount, Auditor.init]

/-- A run exercising batch-failure isolation: table t1's first batch fails
masking (a 65-digit value under the preserve_format rule raises
IndexError), its second batch and table t2's batch succeed. -/
def wcfgIso : RunConfig :=
  ⟨[], "runner", Mode.delta, true,
   [⟨"t1", Option.none,
      [[[("phone", Val.vStr (String.mk (List.replicate 65 '1')))]],
       [[("phone", Val.vStr "555-1234")]]]⟩,
    ⟨"t2", Option.none, [[[("x", Val.vInt 1)]]]⟩],
   [("t1", [("phone", "preserve_format")])]⟩

/-- Witness for C7: on the concrete run above the pipeline completes and
the audit summary holds one entry per batch (three entries for three
batches, the failure included). -/
theorem batch_failure_isolation_witness :
    (run_pipeline wcfgIso [] [] ⟨[], 0⟩).aborted = false ∧
    entryCount (run_pipeline wcfgIso [] [] ⟨[], 0⟩).finalState.audit
      = totalBatches wcfgIso.tables :=
  ⟨(batch_failure_isolation wcfgIso [] [] ⟨[], 0⟩ (by decide)).1,
   ((batch_failure_isolation wcfgIso [] [] ⟨[], 0⟩ (by decide)).2).2.1⟩

/-- Looking up a key right after setting it yields the new value. -/
theorem alistGet_alistSet {α : Type} (l : List (String × α)) (k : String) (v : α) :
    alistGet (alistSet l k v) k = some v := by
  induction l with
  | nil => simp [alistSet, alistGet]
  | cons p l ih =>
    by_cases h : p.1 = k
    · simp [alistSet, alistGet, h]
    · simp [alistSet, alistGet, h, ih]

/-- C2 (amended): the watermark update of process_table overwrites the
stored entry with the current batch's maximum, so after a sequence of
successfully processed delta-mode batches the stored watermark equals the
stringified maximum non-null updated_at value of the LAST batch carrying
any non-null value — the prior value when no batch does — rather than the
maximum across all batches, and it is not monotone. -/
theorem watermark_last_batch_characterization (st : List (String × String))
    (tn : String) (bs : List (List Row)) :
    alistGet (bs.foldl (fun m b => updateWatermark m tn b) st) tn =
      match lastBatchMax bs with
      | some m => some (pyStr m)
      | Option.none => alistGet st tn := by
  induction bs generalizing st with
  | nil => rfl
  | cons b bs ih =>
    rw [List.foldl_cons, ih]
    cases hl : lastBatchMax bs with
    | some m => simp [lastBatchMax, hl]
    | none =>
      simp only [lastBatchMax, hl]
      cases hp : pyMaxList (wmValsOf b) with
      | some m => simp [updateWatermark, hp, alistGet_alistSet]
      | none => simp [updateWatermark, hp]

/-- Setting an existing column leaves a row's column list unchanged. -/
theorem rowNames_dictSet (r : Row) (c : String) (v : Val)
    (h : c ∈ rowNames r) : rowNames (dictSet r c v) = rowNames r := by
  induction r with
  | nil => simp [rowNames] at h
  | cons p r ih =>
    by_cases hp : p.1 = c
    · simp [dictSet, hp, rowNames]
    · have h2 : c ∈ rowNames r := by
        simp only [rowNames, List.map_cons, List.mem_cons] at h
        rcases h with h | h
        · exact absurd h.symm hp
        · exact h
      have ih2 := ih h2
      simp only [dictSet, if_neg hp, rowNames, List.map_cons]
      simp only [rowNames] at ih2
      rw [ih2]

/-- Reading the column just set yields the new value. -/
theorem rowGet_dictSet_same (r : Row) (c : String) (v : Val) :
    rowGet (dictSet r c v) c = v := by
  induction r with
  | nil => simp [dictSet, rowGet]
  | cons p r ih =>
    by_cases hp : p.1 = c
    · simp [dictSet, hp, rowGet]
    · simp [dictSet, hp, rowGet, ih]

/-- Setting one column leaves every other column's value unchanged. -/
theorem rowGet_dictSet_other (r : Row) (c : String) (v : Val) (cq : String)
    (h : c ≠ cq) : rowGet (dictSet r c v) cq = rowGet r cq := by
  induction r with
  | nil => simp [dictSet, rowGet, h]
  | cons p r ih =>
    by_cases hp : p.1 = c
    · simp [dictSet, hp, rowGet, h]
    · simp [dictSet, hp, rowGet, ih]

/-- Every successful branch of the rule dispatch returns the row under
construction with exactly the dispatched column assigned. -/
theorem applyRule_ok_shape (row nr : Row) (col rule : String) (ctx : MaskCtx)
    (nr1 : Row) (ctx1 : MaskCtx)
    (h : applyRule row nr col rule ctx = (Except.ok nr1, ctx1)) :
    ∃ v, nr1 = dictSet nr col v := by
  unfold applyRule at h
  split_ifs at h
  · simp only [Prod.mk.injEq, Except.ok.injEq] at h
    exact ⟨_, h.1.symm⟩
  · simp only [Prod.mk.injEq, Except.ok.injEq] at h
    exact ⟨_, h.1.symm⟩
  · rcases hp : preserve_phone_format (rowGet row col) with e | v <;> rw [hp] at h
    · simp at h
    · simp only [Prod.mk.injEq, Except.ok.injEq] at h
      exact ⟨_, h.1.symm⟩
  · by_cases hv : rowGet row col = Val.vNull
    · rw [if_pos hv] at h
      simp only [Prod.mk.injEq, Except.ok.injEq] at h
      exact ⟨_, h.1.symm⟩
    · rw [if_neg hv] at h
      rcases hg : get_or_create_token ctx (some (pyStr (rowGet row col))) with ⟨tok, ctxg⟩
      rw [hg] at h
      cases tok <;> simp only [Prod.mk.injEq, Except.ok.injEq] at h <;> exact ⟨_, h.1.symm⟩
  · simp only [Prod.mk.injEq, Except.ok.injEq] at h
    exact ⟨_, h.1.symm⟩

/-- An unrecognized rule name falls through to the pass-through branch:
the column is assigned its own original value and nothing is raised. -/
theorem applyRule_unrec (row nr : Row) (col rule : String) (ctx : MaskCtx)
    (h : recognizedRule rule = false) :
    applyRule row nr col rule ctx = (Except.ok (dictSet nr col (rowGet row col)), ctx) := by
  have h1 : rule ≠ "deterministic_hash" := fun hh => by simp [recognizedRule, hh] at h
  have h2 : rule ≠ "redaction" := fun hh => by simp [recognizedRule, hh] at h
  have h3 : rule ≠ "redact" := fun hh => by simp [recognizedRule, hh] at h
  have h4 : rule ≠ "preserve_format" := fun hh => by simp [recognizedRule, hh] at h
  have h5 : rule ≠ "preserve_phone_format" := fun hh => by simp [recognizedRule, hh] at h
  have h6 : rule ≠ "tokenize" := fun hh => by simp [recognizedRule, hh] at h
  unfold applyRule
  rw [if_neg h1, if_neg (fun hc => hc.elim h2 h3), if_neg (fun hc => hc.elim h4 h5),
      if_neg h6]

/-- A successful rule loop never changes the row's column list, provided
every rule column already occurs in the row. -/
theorem applyRules_ok_names (row : Row) (rules : List (String × String))
    (nr : Row) (ctx : MaskCtx) (out : Row) (ctx2 : MaskCtx)
    (hsub : ∀ p ∈ rules, p.1 ∈ rowNames nr)
    (hrun : applyRules row rules nr ctx = (Except.ok out, ctx2)) :
    rowNames out = rowNames nr := by
  induction rules generalizing nr ctx with
  | nil =>
    unfold applyRules at hrun
    simp only [Prod.mk.injEq, Except.ok.injEq] at hrun
    rw [← hrun.1]
  | cons pr rest ih =>
    obtain ⟨col, rule⟩ := pr
    unfold applyRules at hrun
    rcases har : applyRule row nr col rule ctx with ⟨res1, ctxa⟩
    rw [har] at hrun
    cases res1 with
    | error e => simp at hrun
    | ok nr1 =>
      obtain ⟨v, hv⟩ := applyRule_ok_shape row nr col rule ctx nr1 ctxa har
      have hcol : col ∈ rowNames nr := hsub (col, rule) (by simp)
      have hnames : rowNames nr1 = rowNames nr := by
        rw [hv]
        exact rowNames_dictSet nr col v hcol
      have hsub2 : ∀ p ∈ rest, p.1 ∈ rowNames nr1 := by
        intro p hp
        rw [hnames]
        exact hsub p (by simp [hp])
      have := ih nr1 ctxa hsub2 hrun
      rw [this, hnames]

/-- A successful rule loop leaves columns named by no rule unchanged. -/
theorem applyRules_ok_get (row : Row) (rules : List (String × String))
    (nr : Row) (ctx : MaskCtx) (out : Row) (ctx2 : MaskCtx) (c : String)
    (hrun : applyRules row rules nr ctx = (Except.ok out, ctx2))
    (hc : ∀ p ∈ rules, p.1 ≠ c) :
    rowGet out c = rowGet nr c := by
  induction rules generalizing nr ctx with
  | nil =>
    unfold applyRules at hrun
    simp only [Prod.mk.injEq, Except.ok.injEq] at hrun
    rw [← hrun.1]
  | cons pr rest ih =>
    obtain ⟨col, rule⟩ := pr
    unfold applyRules at hrun
    rcases har : applyRule row nr col rule ctx with ⟨res1, ctxa⟩
    rw [har] at hrun
    cases res1 with
    | error e => simp at hrun
    | ok nr1 =>
      obtain ⟨v, hv⟩ := applyRule_ok_shape row nr col rule ctx nr1 ctxa har
      have hcol : col ≠ c := hc (col, rule) (by simp)
      have hget : rowGet nr1 c = rowGet nr c := by
        rw [hv]
        exact rowGet_dictSet_other nr col v c hcol
      have hc2 : ∀ p ∈ rest, p.1 ≠ c := fun p hp => hc p (by simp [hp])
      rw [ih nr1 ctxa hrun hc2, hget]

/-- After a successful rule loop, a column dispatched to an unrecognized
rule carries its original value (the rule columns being distinct, as
Python dict keys are). -/
theorem applyRules_unrec_get (row : Row) (rules : List (String × String))
    (nr : Row) (ctx : MaskCtx) (out : Row) (ctx2 : MaskCtx) (col rule : String)
    (hnd : (rules.map Prod.fst).Nodup)
    (hmem : (col, rule) ∈ rules)
    (hunrec : recognizedRule rule = false)
    (hrun : applyRules row rules nr ctx = (Except.ok out, ctx2)) :
    rowGet out col = rowGet row col := by
  induction rules generalizing nr ctx with
  | nil => simp at hmem
  | cons pr rest ih =>
    obtain ⟨c1, r1⟩ := pr
    unfold applyRules at hrun
    rcases har : applyRule row nr c1 r1 ctx with ⟨res1, ctxa⟩
    rw [har] at hrun
    cases res1 with
    | error e => simp at hrun
    | ok nr1 =>
      simp only [List.map_cons, List.nodup_cons] at hnd
      rcases List.mem_cons.mp hmem with hhead | htail
      · have hc1 : c1 = col := congrArg Prod.fst hhead.symm
        have hr1 : r1 = rule := congrArg Prod.snd hhead.symm
        have hstep : nr1 = dictSet nr col (rowGet row col) := by
          have h0 := applyRule_unrec row nr c1 r1 ctx (by rw [hr1]; exact hunrec)
          rw [h0] at har
          simp only [Prod.mk.injEq, Except.ok.injEq] at har
          rw [← hc1]
          exact har.1.symm
        have hrest : ∀ p ∈ rest, p.1 ≠ col := by
          intro p hp hpc
          apply hnd.1
          rw [← hc1] at hpc
          exact hpc ▸ (List.mem_map_of_mem Prod.fst hp)
        rw [applyRules_ok_get row rest nr1 ctxa out ctx2 col hrun hrest, hstep]
        exact rowGet_dictSet_same nr col (rowGet row col)
      · exact ih nr1 ctxa hnd.2 htail hrun

/-- C4 (amended): provided every column named by the rule set occurs in
the input row (and rule columns are distinct, as Python dict keys are),
whenever apply_masking returns a row it has exactly the input's column
set — nothing dropped, nothing added; columns absent from the rule set
keep their original values; and a column dispatched to an unrecognized
rule name passes through unchanged.  When the rule set names a column
absent from the row, the returned row instead gains that column. -/
theorem apply_masking_amended (row : Row) (rules : List (String × String))
    (ctx : MaskCtx) (out : Row) (ctx2 : MaskCtx)
    (hsub : ∀ p ∈ rules, p.1 ∈ rowNames row)
    (hnd : (rules.map Prod.fst).Nodup)
    (hok : apply_masking row rules ctx = (Except.ok out, ctx2)) :
    rowNames out = rowNames row ∧
    (∀ c : String, (∀ p ∈ rules, p.1 ≠ c) → rowGet out c = rowGet row c) ∧
    (∀ col rule : String, (col, rule) ∈ rules → recognizedRule rule = false →
      rowGet out col = rowGet row col) := by
  refine ⟨?_, ?_, ?_⟩
  · exact applyRules_ok_names row rules row ctx out ctx2 hsub hok
  · intro c hc
    exact applyRules_ok_get row rules row ctx out ctx2 c hok hc
  · intro col rule hmem hunrec
    exact applyRules_unrec_get row rules row ctx out ctx2 col rule hnd hmem hunrec hok

/-- Witness for C4's amended statement on a concrete row and rule set: the
column list is preserved and the column under the unrecognized rule name
keeps its value. -/
theorem apply_masking_amended_witness :
    rowNames [("email", Val.vStr "REDACTED"), ("note", Val.vStr "k")]
      = rowNames [("email", Val.vStr "x"), ("note", Val.vStr "k")] ∧
    rowGet [("email", Val.vStr "REDACTED"), ("note", Val.vStr "k")] "note"
      = rowGet [("email", Val.vStr "x"), ("note", Val.vStr "k")] "note" :=
  ⟨(apply_masking_amended [("email", Val.vStr "x"), ("note", Val.vStr "k")]
      [("email", "redact"), ("note", "unknown_rule")] ⟨[], 0⟩
      [("email", Val.vStr "REDACTED"), ("note", Val.vStr "k")] ⟨[], 0⟩
      (by decide) (by decide) (by rfl)).1,
   ((apply_masking_amended [("email", Val.vStr "x"), ("note", Val.vStr "k")]
      [("email", "redact"), ("note", "unknown_rule")] ⟨[], 0⟩
      [("email", Val.vStr "REDACTED"), ("note", Val.vStr "k")] ⟨[], 0⟩
      (by decide) (by decide) (by rfl)).2).2 "note" "unknown_rule"
      (by decide) (by decide)⟩

/-- Mapping a function that fixes every element of a list is the identity. -/
theorem map_id_mem {α : Type} (l : List α) (f : α → α)
    (h : ∀ a ∈ l, f a = a) : l.map f = l := by
  induction l with
  | nil => rfl
  | cons a l ih =>
    simp only [List.map_cons]
    rw [h a (by simp), ih (fun b hb => h b (by simp [hb]))]

/-- Two functions agreeing on a list map it identically. -/
theorem map_congr_mem {α β : Type} (l : List α) (f g : α → β)
    (h : ∀ a ∈ l, f a = g a) : l.map f = l.map g := by
  induction l with
  | nil => rfl
  | cons a l ih =>
    simp only [List.map_cons]
    rw [h a (by simp), ih (fun b hb => h b (by simp [hb]))]

/-- The any-test of upsert1 holds exactly when some stored tuple shares the
proposed tuple's key. -/
theorem any_key_true_iff (pk : List String) (t : List Row) (new : Row) :
    (t.any fun s => decide (keyVals pk s = keyVals pk new)) = true ↔
      ∃ s ∈ t, keyVals pk s = keyVals pk new := by
  simp

/-- Updating the same columns with the same values twice is the same as
doing it once. -/
theorem updTuple_idem (uc : List String) (new s : Row) :
    updTuple uc new (updTuple uc new s) = updTuple uc new s := by
  unfold updTuple
  rw [List.map_map]
  apply map_congr_mem
  intro p hp
  by_cases h : p.1 ∈ uc <;> simp [Function.comp, h]

/-- Columns outside the update set keep their values under updTuple. -/
theorem rowGet_updTuple_not_mem (uc : List String) (new s : Row) (c : String)
    (hc : c ∉ uc) : rowGet (updTuple uc new s) c = rowGet s c := by
  induction s with
  | nil => rfl
  | cons p s ih =>
    simp only [updTuple, List.map_cons] at ih ⊢
    by_cases hp : p.1 ∈ uc
    · rw [if_pos hp]
      by_cases hpc : p.1 = c
      · exact absurd (hpc ▸ hp) hc
      · simp only [rowGet, hpc, if_false]
        exact ih
    · rw [if_neg hp]
      by_cases hpc : p.1 = c
      · simp [rowGet, hpc]
      · simp only [rowGet, hpc, if_false]
        exact ih

/-- The update columns being disjoint from the key columns, updTuple never
changes a tuple's key. -/
theorem keyVals_updTuple (pk uc : List String) (new s : Row)
    (huc : ∀ c ∈ uc, c ∉ pk) :
    keyVals pk (updTuple uc new s) = keyVals pk s := by
  unfold keyVals
  apply map_congr_mem
  intro c hc
  apply rowGet_updTuple_not_mem
  intro hcu
  exact huc c hcu hc

/-- Reading a column of a schema-shaped tuple yields its generator value. -/
theorem rowGet_mapped_schema (schema : List String) (g : String → Val)
    (c : String) (hc : c ∈ schema) :
    rowGet (schema.map (fun a => (a, g a))) c = g c := by
  induction schema with
  | nil => simp at hc
  | cons a l ih =>
    simp only [List.map_cons]
    by_cases ha : a = c
    · simp [rowGet, ha]
    · have hcl : c ∈ l := by
        rcases List.mem_cons.mp hc with h | h
        · exact absurd h.symm ha
        · exact h
      simp only [rowGet, ha, if_false]
      exact ih hcl

/-- A schema-shaped tuple is a fixed point of updating itself. -/
theorem updTuple_self_mapped (uc schema : List String) (g : String → Val) :
    updTuple uc (schema.map fun a => (a, g a)) (schema.map fun a => (a, g a))
      = schema.map fun a => (a, g a) := by
  unfold updTuple
  rw [List.map_map]
  apply map_congr_mem
  intro a ha
  simp only [Function.comp]
  by_cases h : a ∈ uc
  · simp only [h, if_pos, if_true]
    rw [rowGet_mapped_schema schema g a ha]
  · simp [h]

/-- Saturation of a table with respect to one proposed tuple: some stored
tuple carries its key, and every stored tuple carrying its key is already
fully overwritten with its values. -/
def SatAt (pk uc : List String) (t : List Row) (new : Row) : Prop :=
  (∃ s ∈ t, keyVals pk s = keyVals pk new) ∧
  (∀ s ∈ t, keyVals pk s = keyVals pk new → updTuple uc new s = s)

/-- Upserting a self-saturated tuple saturates the table for it. -/
theorem sat_after_upsert1 (pk uc : List String) (t : List Row) (new : Row)
    (huc : ∀ c ∈ uc, c ∉ pk) (hself : updTuple uc new new = new) :
    SatAt pk uc (upsert1 pk uc t new) new := by
  unfold upsert1
  by_cases hany : (t.any fun s => decide (keyVals pk s = keyVals pk new)) = true
  · rw [if_pos hany]
    obtain ⟨s0, hs0, hk0⟩ := (any_key_true_iff pk t new).mp hany
    constructor
    · refine ⟨updTuple uc new s0, ?_, ?_⟩
      · have heq : (if keyVals pk s0 = keyVals pk new then updTuple uc new s0 else s0)
            = updTuple uc new s0 := if_pos hk0
        rw [← heq]
        exact List.mem_map_of_mem _ hs0
      · rw [keyVals_updTuple pk uc new s0 huc]
        exact hk0
    · intro sq hsq hkq
      obtain ⟨s, hs, hmap⟩ := List.mem_map.mp hsq
      by_cases hk : keyVals pk s = keyVals pk new
      · rw [if_pos hk] at hmap
        rw [← hmap]
        exact updTuple_idem uc new s
      · rw [if_neg hk] at hmap
        rw [← hmap] at hkq
        exact absurd hkq hk
  · rw [if_neg hany]
    constructor
    · exact ⟨new, by simp, rfl⟩
    · intro sq hsq hkq
      rcases List.mem_append.mp hsq with h | h
      · exfalso
        exact hany ((any_key_true_iff pk t new).mpr ⟨sq, h, hkq⟩)
      · have hq : sq = new := by simpa using h
        rw [hq]
        exact hself

/-- Upserting a tuple with a different key preserves saturation. -/
theorem sat_preserved_upsert1 (pk uc : List String) (t : List Row) (new q : Row)
    (huc : ∀ c ∈ uc, c ∉ pk)
    (hne : keyVals pk q ≠ keyVals pk new)
    (hsat : SatAt pk uc t new) :
    SatAt pk uc (upsert1 pk uc t q) new := by
  obtain ⟨⟨s0, hs0, hk0⟩, hB⟩ := hsat
  unfold upsert1
  by_cases hany : (t.any fun s => decide (keyVals pk s = keyVals pk q)) = true
  · rw [if_pos hany]
    constructor
    · refine ⟨s0, ?_, hk0⟩
      have heq : (if keyVals pk s0 = keyVals pk q then updTuple uc q s0 else s0) = s0 := by
        rw [if_neg]
        intro hh
        exact hne (by rw [← hh, hk0])
      rw [← heq]
      exact List.mem_map_of_mem _ hs0
    · intro sq hsq hkq
      obtain ⟨s, hs, hmap⟩ := List.mem_map.mp hsq
      by_cases hk : keyVals pk s = keyVals pk q
      · rw [if_pos hk] at hmap
        exfalso
        apply hne
        rw [← hk, ← keyVals_updTuple pk uc q s huc, hmap]
        exact hkq
      · rw [if_neg hk] at hmap
        rw [← hmap]
        exact hB s hs (by rw [hmap]; exact hkq)
  · rw [if_neg hany]
    constructor
    · exact ⟨s0, List.mem_append.mpr (Or.inl hs0), hk0⟩
    · intro sq hsq hkq
      rcases List.mem_append.mp hsq with h | h
      · exact hB sq h hkq
      · have hq : sq = q := by simpa using h
        exfalso
        apply hne
        rw [← hq]
        exact hkq

/-- Upserting any run of tuples with keys different from the saturated one
preserves saturation. -/
theorem sat_preserved_upsertAll (pk uc : List String) (new : Row)
    (huc : ∀ c ∈ uc, c ∉ pk) (P : List Row)
    (hP : ∀ q ∈ P, keyVals pk q ≠ keyVals pk new) :
    ∀ t, SatAt pk uc t new → SatAt pk uc (upsertAll pk uc t P) new := by
  induction P with
  | nil => intro t h; exact h
  | cons q P ih =>
    intro t h
    unfold upsertAll
    rw [List.foldl_cons]
    exact ih (fun r hr => hP r (by simp [hr])) (upsert1 pk uc t q)
      (sat_preserved_upsert1 pk uc t new q huc (hP q (by simp)) h)

/-- After upserting a batch of self-saturated tuples with pairwise
distinct keys, the table is saturated for every one of them. -/
theorem sat_all_after_upsertAll (pk uc : List String)
    (huc : ∀ c ∈ uc, c ∉ pk) (P : List Row)
    (hnd : (P.map (keyVals pk)).Nodup)
    (hself : ∀ p ∈ P, updTuple uc p p = p) :
    ∀ t, ∀ p ∈ P, SatAt pk uc (upsertAll pk uc t P) p := by
  induction P with
  | nil => intro t p hp; simp at hp
  | cons q P ih =>
    intro t p hp
    simp only [List.map_cons, List.nodup_cons] at hnd
    unfold upsertAll
    rw [List.foldl_cons]
    rcases List.mem_cons.mp hp with h | h
    · rw [h]
      apply sat_preserved_upsertAll pk uc q huc P
      · intro r hr hkr
        exact hnd.1 (hkr ▸ List.mem_map_of_mem (keyVals pk) hr)
      · exact sat_after_upsert1 pk uc t q huc (hself q (by simp))
    · exact ih hnd.2 (fun r hr => hself r (by simp [hr])) (upsert1 pk uc t q) p h

/-- Upserting a batch into a table already saturated for each of its
tuples changes nothing. -/
theorem upsertAll_sat_id (pk uc : List String) (P : List Row) :
    ∀ T, (∀ p ∈ P, SatAt pk uc T p) → upsertAll pk uc T P = T := by
  induction P with
  | nil => intro T h; rfl
  | cons q P ih =>
    intro T h
    have hq := h q (by simp)
    have hstep : upsert1 pk uc T q = T := by
      unfold upsert1
      rw [if_pos ((any_key_true_iff pk T q).mpr hq.1)]
      apply map_id_mem
      intro s hs
      by_cases hk : keyVals pk s = keyVals pk q
      · rw [if_pos hk]
        exact hq.2 s hs hk
      · rw [if_neg hk]
    unfold upsertAll
    rw [List.foldl_cons, hstep]
    exact ih T (fun p hp => h p (by simp [hp]))

/-- Re-upserting the very batch just upserted is the identity, provided
the batch's keys are pairwise distinct, the update columns avoid the key
columns, and each proposed tuple is a fixed point of self-update. -/
theorem upsertAll_idempotent (pk uc : List String) (T P : List Row)
    (huc : ∀ c ∈ uc, c ∉ pk)
    (hnd : (P.map (keyVals pk)).Nodup)
    (hself : ∀ p ∈ P, updTuple uc p p = p) :
    upsertAll pk uc (upsertAll pk uc T P) P = upsertAll pk uc T P :=
  upsertAll_sat_id pk uc P (upsertAll pk uc T P)
    (sat_all_after_upsertAll pk uc huc P hnd hself T)

/-- Evaluation of the keyed loader branch when both PostgreSQL checks
pass: the batch is upserted and committed. -/
theorem insertKeyed_eval (schema : List String) (T : List Row)
    (rows : List Row) (columns pk : List String)
    (hnull : ¬ ((rows.map (insTuple schema columns)).any
      (fun p => decide (Val.vNull ∈ keyVals pk p))) = true)
    (hdup : ¬ (decide (¬ ((rows.map (insTuple schema columns)).map (keyVals pk)).Nodup)) = true) :
    insertKeyed ⟨schema, T⟩ rows columns pk
      = (⟨schema, upsertAll pk (columns.filter fun c => decide (c ∉ pk)) T
          (rows.map (insTuple schema columns))⟩, LoadOutcome.committed) := by
  unfold insertKeyed
  dsimp only
  rw [if_neg hnull, if_neg hdup]

/-- Evaluation of the keyed loader branch when a proposed key is NULL. -/
theorem insertKeyed_eval_null (schema : List String) (T : List Row)
    (rows : List Row) (columns pk : List String)
    (hnull : ((rows.map (insTuple schema columns)).any
      (fun p => decide (Val.vNull ∈ keyVals pk p))) = true) :
    insertKeyed ⟨schema, T⟩ rows columns pk
      = (⟨schema, T⟩, LoadOutcome.rolledBack "null value in primary key column") := by
  unfold insertKeyed
  dsimp only
  rw [if_pos hnull]

/-- Evaluation of the keyed loader branch when two proposed rows conflict
on the same key. -/
theorem insertKeyed_eval_dup (schema : List String) (T : List Row)
    (rows : List Row) (columns pk : List String)
    (hnull : ¬ ((rows.map (insTuple schema columns)).any
      (fun p => decide (Val.vNull ∈ keyVals pk p))) = true)
    (hdup : (decide (¬ ((rows.map (insTuple schema columns)).map (keyVals pk)).Nodup)) = true) :
    insertKeyed ⟨schema, T⟩ rows columns pk
      = (⟨schema, T⟩,
         LoadOutcome.rolledBack "ON CONFLICT DO UPDATE command cannot affect row a second time") := by
  unfold insertKeyed
  dsimp only
  rw [if_neg hnull, if_pos hdup]

/-- Loading the same batch twice through the keyed branch leaves the table
where the first load left it: failed checks roll back and change nothing,
and a successful second upsert rewrites every row with the values it
already has. -/
theorem insertKeyed_idem (schema : List String) (T : List Row)
    (rows : List Row) (columns pk : List String) :
    (insertKeyed (insertKeyed ⟨schema, T⟩ rows columns pk).1 rows columns pk).1
      = (insertKeyed ⟨schema, T⟩ rows columns pk).1 := by
  by_cases hnull : ((rows.map (insTuple schema columns)).any
      (fun p => decide (Val.vNull ∈ keyVals pk p))) = true
  · have h1 := insertKeyed_eval_null schema T rows columns pk hnull
    rw [h1]
    dsimp only
    rw [h1]
  · by_cases hdup : (decide (¬ ((rows.map (insTuple schema columns)).map (keyVals pk)).Nodup)) = true
    · have h1 := insertKeyed_eval_dup schema T rows columns pk hnull hdup
      rw [h1]
      dsimp only
      rw [h1]
    · have huc : ∀ c ∈ columns.filter (fun c => decide (c ∉ pk)), c ∉ pk := by
        intro c hc
        exact of_decide_eq_true (List.mem_filter.mp hc).2
      have hnd : ((rows.map (insTuple schema columns)).map (keyVals pk)).Nodup := by
        by_contra hcon
        exact hdup (decide_eq_true hcon)
      have hself : ∀ p ∈ rows.map (insTuple schema columns),
          updTuple (columns.filter fun c => decide (c ∉ pk)) p p = p := by
        intro p hp
        obtain ⟨r, hr, hpr⟩ := List.mem_map.mp hp
        rw [← hpr]
        exact updTuple_self_mapped (columns.filter fun c => decide (c ∉ pk)) schema
          (fun c => if c ∈ columns then rowGet r c else Val.vNull)
      have h1 := insertKeyed_eval schema T rows columns pk hnull hdup
      have h2 := insertKeyed_eval schema
        (upsertAll pk (columns.filter fun c => decide (c ∉ pk)) T
          (rows.map (insTuple schema columns))) rows columns pk hnull hdup
      rw [h1]
      dsimp only
      rw [h2]
      dsimp only
      congr 1
      exact upsertAll_idempotent pk (columns.filter fun c => decide (c ∉ pk)) T
        (rows.map (insTuple schema columns)) huc hnd hself

/-- C8: for a table with a declared primary-key column set, loading the
same batch twice through insert_rows leaves the destination table
identical after the second load to its state after the first: a second
successful upsert overwrites every non-key column with the values it
already carries, and any rolled-back load leaves the table untouched. -/
theorem insert_rows_upsert_idempotent (table_name : String) (pk : List String)
    (tbl : TableData) (rows : List Row)
    (hpk : UPSERT_KEYS table_name = some pk) :
    (insert_rows table_name (insert_rows table_name tbl rows).1 rows).1
      = (insert_rows table_name tbl rows).1 := by
  obtain ⟨schema, T⟩ := tbl
  cases rows with
  | nil => rfl
  | cons r0 rest =>
    by_cases hall : ((r0 :: rest).all fun r => (rowNames r0).all fun c => rowHasB r c) = true
    · have h1 : ∀ tb : TableData, insert_rows table_name tb (r0 :: rest)
          = insertKeyed tb (r0 :: rest) (rowNames r0) pk := by
        intro tb
        unfold insert_rows insertNonempty
        dsimp only
        rw [if_pos hall, hpk]
      rw [h1 ((insert_rows table_name ⟨schema, T⟩ (r0 :: rest)).1), h1 ⟨schema, T⟩]
      exact insertKeyed_idem schema T (r0 :: rest) (rowNames r0) pk
    · have h1 : ∀ tb : TableData, insert_rows table_name tb (r0 :: rest)
          = (tb, LoadOutcome.rolledBack "KeyError: missing column in row") := by
        intro tb
        unfold insert_rows insertNonempty
        dsimp only
        rw [if_neg hall]
      rw [h1 ⟨schema, T⟩]
      dsimp only
      rw [h1 ⟨schema, T⟩]

/-- Witness for C8: loading a concrete two-row batch into the keyed
customers table twice gives the same table as loading it once. -/
theorem insert_rows_upsert_idempotent_witness :
    (insert_rows "customers"
      (insert_rows "customers" ⟨["customer_id", "email"], []⟩
        [[("customer_id", Val.vInt 1), ("email", Val.vStr "a")],
         [("customer_id", Val.vInt 2), ("email", Val.vStr "b")]]).1
      [[("customer_id", Val.vInt 1), ("email", Val.vStr "a")],
       [("customer_id", Val.vInt 2), ("email", Val.vStr "b")]]).1
    = (insert_rows "customers" ⟨["customer_id", "email"], []⟩
      [[("customer_id", Val.vInt 1), ("email", Val.vStr "a")],
       [("customer_id", Val.vInt 2), ("email", Val.vStr "b")]]).1 :=
  insert_rows_upsert_idempotent "customers" ["customer_id"]
    ⟨["customer_id", "email"], []⟩
    [[("customer_id", Val.vInt 1), ("email", Val.vStr "a")],
     [("customer_id", Val.vInt 2), ("email", Val.vStr "b")]]
    (by decide)
